import Mathlib

/-!
Verification of the mondrian_utils core against its specification.

The definitions below are shallow embeddings of the Python functions in
`mondrianutils/variant_calling/utils.py` and `mondrianutils/alignment/utils.py`.
Machine integers are modelled as `Nat`/`Int`; float division in the
contamination detector is modelled as exact rational division; pandas
dataframes are modelled as lists of records; Python dicts are modelled as
association lists built with insert-or-overwrite semantics; functions that
raise on bad input return `Option`.
-/

namespace MondrianUtils

/-! ## Interval partitioner (`variant_calling/utils.py`)

`generate_intervals(ref, chromosomes, size)` iterates over the reference
sequences in order; for each `(name, length)` with `name` in `chromosomes`
it runs `for i in range(int((length / size) + 1))` and emits the interval
`(name, i*size + 1, min((i+1)*size, length))`.  The iteration count
`int(length/size) + 1` is floor division plus one.
-/

/-- The per-sequence loop body of `generate_intervals`: for a sequence of
length `length` and chunk size `size`, the emitted `(start, end)` pairs. -/
def seqIntervals (length size : Nat) : List (Nat × Nat) :=
  (List.range (length / size + 1)).map
    (fun i => (i * size + 1, min ((i + 1) * size) length))

/-- `generate_intervals`: sequences whose name is not in `chromosomes` are
skipped; the rest contribute their chunk intervals in order. -/
def generate_intervals (ref : List (String × Nat)) (chromosomes : List String)
    (size : Nat) : List (String × Nat × Nat) :=
  ref.flatMap (fun nl =>
    if chromosomes.contains nl.1 then
      (seqIntervals nl.2 size).map (fun p => (nl.1, p))
    else [])

/-- The intervals emitted for one named sequence: the `(start, end)` pairs of
the output triples carrying that name. -/
def emittedFor (out : List (String × Nat × Nat)) (name : String) :
    List (Nat × Nat) :=
  (out.filter (fun t => t.1 == name)).map (fun t => t.2)

/-- `chainFrom s e l`: the intervals in `l` are contiguous starting at `s`
(each starts where demanded, has `start ≤ end`, and the next starts one past
its end) and together cover exactly `[s, e]`. -/
def chainFrom (s e : Nat) : List (Nat × Nat) → Bool
  | [] => s == e + 1
  | (a, b) :: rest => (a == s) && (decide (a ≤ b)) && chainFrom (b + 1) e rest

/-- A list of intervals exactly tiles `[1, len]`. -/
def tilesExactly (l : List (Nat × Nat)) (len : Nat) : Bool :=
  chainFrom 1 len l

/-! `split_interval(interval, num_splits)` parses `chrom:start-end`, computes
`intervalsize = ceil((end - start) / num_splits)` and then walks a cursor,
emitting `(currpos, currpos + intervalsize)` pieces, truncating the piece that
reaches `end` and stopping there.  We embed the loop directly, taking the
parsed components as arguments (the string parsing is plumbing). -/

/-- The loop of `split_interval`: `k` remaining iterations, cursor at `s`. -/
def splitIntervalGo (chrom : String) (isize stop : Nat) :
    Nat → Nat → List (String × Nat × Nat)
  | 0, _ => []
  | k + 1, s =>
    if stop ≤ s + isize then
      [(chrom, s, stop)]
    else
      (chrom, s, s + isize) :: splitIntervalGo chrom isize stop k (s + isize + 1)

/-- `split_interval` on the parsed interval `chrom:start-stop`. -/
def split_interval (chrom : String) (start stop : Nat) (num_splits : Nat) :
    List (String × Nat × Nat) :=
  let intervalsize := (stop - start + num_splits - 1) / num_splits
  splitIntervalGo chrom intervalsize stop num_splits start

/-! ## Cell classifier (`alignment/utils.py`)

The metrics csv is a table with columns `cell_id`, `is_control`,
`is_contaminated`; we model it as a list of rows.  `get_pass_files`,
`get_control_files` and `get_contaminated_files` each assert
`set(cell_ids) == set(metrics['cell_id'])` (modelled as returning `none` when
the assertion fails) and then build Python dicts from `zip(cell_ids, infiles)`
filtered by the flag-derived cell sets.
-/

structure MetricsRow where
  cell_id : String
  is_control : Bool
  is_contaminated : Bool
deriving DecidableEq

/-- `list(metrics['cell_id'])`. -/
def metricsCellIds (metrics : List MetricsRow) : List String :=
  metrics.map (fun r => r.cell_id)

/-- `set(list(metrics[metrics['is_control']]['cell_id']))` as a list. -/
def controlCells (metrics : List MetricsRow) : List String :=
  (metrics.filter (fun r => r.is_control)).map (fun r => r.cell_id)

/-- `set(list(metrics[metrics['is_contaminated']]['cell_id']))` as a list. -/
def contaminatedCells (metrics : List MetricsRow) : List String :=
  (metrics.filter (fun r => r.is_contaminated)).map (fun r => r.cell_id)

/-- Python `set(a) == set(b)` for string lists. -/
def setEqCells (a b : List String) : Bool :=
  a.all (fun x => b.contains x) && b.all (fun x => a.contains x)

/-- Python dict assignment `d[k] = v`: overwrite the value in place if the key
is present, else append the new pair. -/
def dictInsert (d : List (String × String)) (k v : String) :
    List (String × String) :=
  if d.any (fun p => p.1 == k) then
    d.map (fun p => if p.1 == k then (k, v) else p)
  else d ++ [(k, v)]

/-- A Python dict comprehension over a list of key-value pairs: pairs are
inserted left to right, a repeated key keeping its first position but taking
the latest value. -/
def buildDict (l : List (String × String)) : List (String × String) :=
  l.foldl (fun d p => dictInsert d p.1 p.2) []

def dictKeys (d : List (String × String)) : List String := d.map Prod.fst

/-- `d[k]` as an option. -/
def dictLookup (d : List (String × String)) (k : String) : Option String :=
  (d.find? (fun p => p.1 == k)).map (fun p => p.2)

/-- The value paired with the last occurrence of key `k` in `l` (specification
helper: this is the value a Python dict built from `l` ends up holding). -/
def lastValue (l : List (String × String)) (k : String) : Option String :=
  (l.reverse.find? (fun p => p.1 == k)).map (fun p => p.2)

/-- `get_pass_files`: assert the cell-id sets match, drop contaminated cells
from `zip(cell_ids, infiles)`, then drop control cells.  (The second dict
comprehension runs over the items of the first dict, which has unique keys, so
it is an order-preserving filter of that dict.) -/
def get_pass_files (infiles cell_ids : List String) (metrics : List MetricsRow) :
    Option (List (String × String)) :=
  if setEqCells cell_ids (metricsCellIds metrics) then
    let d := buildDict ((cell_ids.zip infiles).filter
      (fun p => ! (contaminatedCells metrics).contains p.1))
    some (d.filter (fun p => ! (controlCells metrics).contains p.1))
  else none

/-- `get_control_files`: assert the cell-id sets match, keep exactly the
control cells from `zip(cell_ids, infiles)`. -/
def get_control_files (infiles cell_ids : List String) (metrics : List MetricsRow) :
    Option (List (String × String)) :=
  if setEqCells cell_ids (metricsCellIds metrics) then
    some (buildDict ((cell_ids.zip infiles).filter
      (fun p => (controlCells metrics).contains p.1)))
  else none

/-- `get_contaminated_files`: assert the cell-id sets match, drop control
cells from `zip(cell_ids, infiles)`, then keep the contaminated cells. -/
def get_contaminated_files (infiles cell_ids : List String) (metrics : List MetricsRow) :
    Option (List (String × String)) :=
  if setEqCells cell_ids (metricsCellIds metrics) then
    let d := buildDict ((cell_ids.zip infiles).filter
      (fun p => ! (controlCells metrics).contains p.1))
    some (d.filter (fun p => (contaminatedCells metrics).contains p.1))
  else none

/-! ## Contamination detector (`alignment/utils.py`)

`add_contamination_status` reads the metrics table, derives the organism list
from the column names (`fastqscreen_*` columns, second underscore-separated
token, deduplicated, sorted, with `nohit` and `total` removed), raises if the
primary reference organism is absent, and then for every other organism flags
cells whose `(mapped - multihit) / total_reads` exceeds the threshold
(default 0.05).  Counts are modelled as integers and the float division as
exact rational division.
-/

structure FQCell where
  cell_id : String
  /-- the `fastqscreen_<organism>` count column -/
  mapped : String → Int
  /-- the `fastqscreen_<organism>_multihit` count column -/
  multihit : String → Int
  /-- the `fastqscreen_total_reads` column -/
  total_reads : Int

/-- Lexicographic code-point order on character lists: Python's string
ordering, used by `sorted`. -/
def charListLe : List Char → List Char → Bool
  | [], _ => true
  | _ :: _, [] => false
  | a :: as, b :: bs =>
    if a.toNat < b.toNat then true
    else if b.toNat < a.toNat then false
    else charListLe as bs

/-- Python `a <= b` on strings (code-point lexicographic). -/
def strLeB (a b : String) : Bool := charListLe a.data b.data

def charsLead : List Char → List Char → Bool
  | [], _ => true
  | _ :: _, [] => false
  | a :: as, b :: bs => a == b && charsLead as bs

/-- Python `v.startswith(pre)` over the underlying characters. -/
def strStartsWith (v pre : String) : Bool := charsLead pre.data v.data

/-- Python `s.split(sep)` for a one-character separator, over characters. -/
def splitChars (sep : Char) : List Char → List (List Char)
  | [] => [[]]
  | c :: cs =>
    if c == sep then [] :: splitChars sep cs
    else
      match splitChars sep cs with
      | [] => [[c]]
      | r :: rs => (c :: r) :: rs

/-- Python `v.split('_')`. -/
def splitUnderscore (v : String) : List String :=
  (splitChars ('_') v.data).map (fun cs => String.mk cs)

/-- The organism list derived from the table's column names:
`fastqscreen_*` columns, second underscore token, deduplicated, sorted,
`nohit` and `total` removed. -/
def extractOrganisms (columns : List String) : List String :=
  let fq := columns.filter (fun v => strStartsWith v ("fastqscreen_"))
  let tokens := fq.map (fun v => (splitUnderscore v).getD 1 (""))
  (List.insertionSort (fun a b => strLeB a b = true) tokens.dedup).filter
    (fun v => ! (v == ("nohit")) && ! (v == ("total")))

/-- `_get_col_data(df, organism) / df['fastqscreen_total_reads']` for one
cell: the unique-read ratio of the given organism. -/
def unique_ratio (cell : FQCell) (org : String) : ℚ :=
  (((cell.mapped org - cell.multihit org : Int) : ℚ)) / ((cell.total_reads : Int) : ℚ)

/-- The flag-update loop: `is_contaminated` starts `False` and is set `True`
for every alternative organism whose ratio exceeds the threshold. -/
def contaminationFlag (alts : List String) (threshold : ℚ) (cell : FQCell) : Bool :=
  alts.foldl (fun acc alt => if threshold < unique_ratio cell alt then true else acc)
    false

/-- `add_contamination_status` over the modelled table: `none` models the
raised exception when the reference organism's counts are missing. -/
def add_contamination_status (columns : List String) (cells : List FQCell)
    (reference : String) (threshold : ℚ) : Option (List (String × Bool)) :=
  let organisms := extractOrganisms columns
  if organisms.contains reference then
    let alts := organisms.filter (fun c => ! (c == reference))
    some (cells.map (fun cell => (cell.cell_id, contaminationFlag alts threshold cell)))
  else none

/-! ## Group merger (`alignment/utils.py`)

`merge_cells(infiles, tempdir, ncores, outfile, reference, empty_bam_content)`
writes a header-only bam when the input dict is empty, otherwise merges the
member bams, rewrites the header appending one `@CO CB:<cell>` line per cell,
and in both cases indexes the output and derives the igvtools count sidecar.
The external merge and reheader capabilities (`helpers.merge_bams`, picard)
are opaque parameters; a bam is a header plus a list of records.
-/

structure BamFile where
  header : String
  records : List String
deriving DecidableEq

structure MergeCellsResult where
  outfile : BamFile
  indexCreated : Bool
  countsCreated : Bool
deriving DecidableEq

/-- `get_new_header`: the merged bam's header followed by one comment line per
contributing cell. -/
def appendCellComments (cells : List String) (hdr : String) : String :=
  hdr ++ String.join (cells.map (fun c => "@CO\tCB:" ++ c ++ "\n"))

/-- `merge_cells`, with the external merge/reheader capabilities passed in. -/
def merge_cells (mergeBams : List String → BamFile)
    (reheaderBam : BamFile → String → BamFile)
    (infiles : List (String × String)) (empty_bam_content : String) :
    MergeCellsResult :=
  let out :=
    if (infiles.map (fun p => p.2)).length == 0 then
      { header := empty_bam_content, records := [] }
    else
      let merged := mergeBams (infiles.map (fun p => p.2))
      let hdr := appendCellComments (infiles.map (fun p => p.1)) merged.header
      reheaderBam merged hdr
  { outfile := out, indexCreated := true, countsCreated := true }

/-! ## Metadata assembler (`alignment/utils.py`)

`generate_metadata` iterates over the cells of the metadata yaml (a dict, so
cell ids are unique), collecting `sample_id` values and `library_id` values
into Python sets and the cell ids into a list, and writes a `meta` block with
`sorted(samples)`, `sorted(libraries)`, `sorted(cells)`.  We model the cells
dict as a list of records and the `meta` identifier lists it produces.
-/

structure CellMeta where
  cell_id : String
  sample_id : String
  library_id : String

/-- Python `sorted` on a list of strings. -/
def sortStrings (l : List String) : List String :=
  List.insertionSort (fun a b => a ≤ b) l

/-- The `sample_ids`, `library_ids`, `cell_ids` lists of the `meta` block
written by `generate_metadata`: `sorted` of the set of sample ids, `sorted` of
the set of library ids, `sorted` of the cell-id list. -/
def generate_metadata_meta (cells : List CellMeta) :
    List String × List String × List String :=
  (sortStrings ((cells.map (fun c => c.sample_id)).dedup),
   sortStrings ((cells.map (fun c => c.library_id)).dedup),
   sortStrings (cells.map (fun c => c.cell_id)))

/-! # Theorems -/

/-! ## Interval partitioner: helper lemmas -/

theorem mem_names_of_mem_generate_intervals {ref : List (String × Nat)}
    {chroms : List String} {size : Nat} {t : String × Nat × Nat}
    (ht : t ∈ generate_intervals ref chroms size) :
    t.1 ∈ ref.map Prod.fst := by
  unfold generate_intervals at ht
  rw [List.mem_flatMap] at ht
  obtain ⟨nl, hnl, hmem⟩ := ht
  by_cases h : chroms.contains nl.1
  · simp only [h, if_pos] at hmem
    rw [List.mem_map] at hmem
    obtain ⟨p, _, rfl⟩ := hmem
    exact List.mem_map.mpr ⟨nl, hnl, rfl⟩
  · rw [if_neg h] at hmem
    simp at hmem

theorem emittedFor_eq_nil {ref : List (String × Nat)} {chroms : List String}
    {size : Nat} {name : String} (h : name ∉ ref.map Prod.fst) :
    emittedFor (generate_intervals ref chroms size) name = [] := by
  unfold emittedFor
  have : (generate_intervals ref chroms size).filter (fun t => t.1 == name) = [] := by
    rw [List.filter_eq_nil_iff]
    intro t ht hbeq
    rw [beq_iff_eq] at hbeq
    exact h (hbeq ▸ mem_names_of_mem_generate_intervals ht)
  rw [this, List.map_nil]

theorem emittedFor_map_self (name : String) (l : List (Nat × Nat)) :
    emittedFor (l.map (fun p => (name, p))) name = l := by
  unfold emittedFor
  rw [List.filter_map]
  have : (fun (t : String × Nat × Nat) => t.1 == name) ∘ (fun p => (name, p)) =
      fun _ => true := by
    funext p
    simp
  rw [this, List.filter_true, List.map_map]
  simp

theorem emittedFor_generate_intervals {chroms : List String} {size : Nat}
    {name : String} {L : Nat} (hchrom : name ∈ chroms) :
    ∀ (ref : List (String × Nat)), (name, L) ∈ ref →
      (ref.map Prod.fst).Nodup →
      emittedFor (generate_intervals ref chroms size) name = seqIntervals L size := by
  intro ref
  induction ref with
  | nil => intro hmem _; simp at hmem
  | cons hd tl ih =>
    intro hmem hnodup
    obtain ⟨n, len⟩ := hd
    rw [List.map_cons, List.nodup_cons] at hnodup
    have hsplit : generate_intervals ((n, len) :: tl) chroms size =
        (if chroms.contains (n, len).1 then
          (seqIntervals (n, len).2 size).map (fun p => ((n, len).1, p))
        else []) ++ generate_intervals tl chroms size := by
      unfold generate_intervals
      rw [List.flatMap_cons]
    rcases List.mem_cons.mp hmem with heq | hmem'
    · injection heq with hn hlen
      subst hn
      subst hlen
      have hc : chroms.contains name = true := List.elem_iff.mpr hchrom
      rw [hsplit]
      simp only [hc, if_pos]
      unfold emittedFor
      rw [List.filter_append, List.map_append]
      have h1 : emittedFor ((seqIntervals L size).map (fun p => (name, p))) name =
          seqIntervals L size := emittedFor_map_self name _
      unfold emittedFor at h1
      rw [h1]
      have h2 : emittedFor (generate_intervals tl chroms size) name = [] :=
        emittedFor_eq_nil hnodup.1
      unfold emittedFor at h2
      rw [h2, List.append_nil]
    · have hname_tl : name ∈ tl.map Prod.fst :=
        List.mem_map.mpr ⟨(name, L), hmem', rfl⟩
      have hn : n ≠ name := fun h => hnodup.1 (h ▸ hname_tl)
      rw [hsplit]
      unfold emittedFor
      rw [List.filter_append, List.map_append]
      have h1 : ((if chroms.contains (n, len).1 then
          (seqIntervals (n, len).2 size).map (fun p => ((n, len).1, p))
          else []).filter (fun t => t.1 == name)) = [] := by
        rw [List.filter_eq_nil_iff]
        intro t ht hbeq
        rw [beq_iff_eq] at hbeq
        by_cases hc : chroms.contains (n, len).1
        · simp only [hc, if_pos] at ht
          rw [List.mem_map] at ht
          obtain ⟨p, _, rfl⟩ := ht
          exact hn hbeq
        · rw [if_neg hc] at ht
          simp at ht
      rw [h1, List.map_nil, List.nil_append]
      exact ih hmem' hnodup.2

theorem chainFrom_seq_ndvd (L C : Nat) (hC : 0 < C) (hnd : ¬ C ∣ L) :
    ∀ (m i : Nat), i + m = L / C + 1 → 0 < m →
      chainFrom (i * C + 1) L
        ((List.range' i m).map (fun j => (j * C + 1, min ((j + 1) * C) L))) = true := by
  intro m
  induction m with
  | zero => intro i _ hpos; omega
  | succ m ih =>
    intro i hsum _
    rw [List.range'_succ, List.map_cons]
    have hq := Nat.div_add_mod L C
    have hrlt : L % C < C := Nat.mod_lt _ hC
    have hr0 : L % C ≠ 0 := fun h => hnd (Nat.dvd_of_mod_eq_zero h)
    cases m with
    | zero =>
      have hi : i = L / C := by omega
      subst hi
      have e1 : (L / C + 1) * C = C * (L / C) + C := by ring
      have e2 : L / C * C = C * (L / C) := by ring
      have hminval : min ((L / C + 1) * C) L = L := Nat.min_eq_right (by omega)
      rw [List.range'_zero, List.map_nil, hminval]
      simp only [chainFrom, List.cons.injEq]
      have hle : L / C * C + 1 ≤ L := by omega
      simp [hle]
    | succ m' =>
      have hilt : i + 1 ≤ L / C := by omega
      have e1 : (i + 1) * C = i * C + C := by ring
      have hub : (i + 1) * C ≤ L := by
        have h1 : (i + 1) * C ≤ L / C * C := mul_le_mul_right' hilt C
        have e2 : L / C * C = C * (L / C) := by ring
        omega
      have hminval : min ((i + 1) * C) L = (i + 1) * C := Nat.min_eq_left hub
      rw [hminval]
      simp only [chainFrom]
      have hstart : i * C + 1 ≤ (i + 1) * C := by omega
      rw [Bool.and_eq_true, Bool.and_eq_true, decide_eq_true_eq]
      exact ⟨⟨by simp, hstart⟩, ih (i + 1) (by omega) (by omega)⟩

theorem chainFrom_seq_dvd (L C : Nat) (hC : 0 < C) (hd : C ∣ L) :
    ∀ (m i : Nat), i + m = L / C → 0 < m →
      chainFrom (i * C + 1) L
        ((List.range' i m).map (fun j => (j * C + 1, min ((j + 1) * C) L))) = true := by
  intro m
  induction m with
  | zero => intro i _ hpos; omega
  | succ m ih =>
    intro i hsum _
    rw [List.range'_succ, List.map_cons]
    have hq := Nat.div_add_mod L C
    have hr0 : L % C = 0 := Nat.mod_eq_zero_of_dvd hd
    cases m with
    | zero =>
      have hi : i + 1 = L / C := by omega
      have e1 : (i + 1) * C = i * C + C := by ring
      have e2 : (i + 1) * C = C * (L / C) := by rw [hi]; ring
      have hLeq : (i + 1) * C = L := by omega
      have hminval : min ((i + 1) * C) L = L := by
        rw [hLeq]
        exact Nat.min_self L
      rw [List.range'_zero, List.map_nil, hminval]
      simp only [chainFrom, beq_self_eq_true, Bool.true_and]
      have hle : i * C + 1 ≤ L := by omega
      simp [hle]
    | succ m' =>
      have hilt : i + 1 ≤ L / C := by omega
      have e1 : (i + 1) * C = i * C + C := by ring
      have hub : (i + 1) * C ≤ L := by
        have h1 : (i + 1) * C ≤ L / C * C := mul_le_mul_right' hilt C
        have e2 : L / C * C = C * (L / C) := by ring
        omega
      have hminval : min ((i + 1) * C) L = (i + 1) * C := Nat.min_eq_left hub
      rw [hminval]
      simp only [chainFrom]
      have hstart : i * C + 1 ≤ (i + 1) * C := by omega
      rw [Bool.and_eq_true, Bool.and_eq_true, decide_eq_true_eq]
      exact ⟨⟨by simp, hstart⟩, ih (i + 1) (by omega) (by omega)⟩

theorem tilesExactly_seqIntervals_ndvd (L C : Nat) (hC : 0 < C) (hnd : ¬ C ∣ L) :
    tilesExactly (seqIntervals L C) L = true := by
  unfold tilesExactly seqIntervals
  rw [List.range_eq_range']
  have := chainFrom_seq_ndvd L C hC hnd (L / C + 1) 0 (Nat.zero_add _) (Nat.succ_pos _)
  simpa using this

theorem seqIntervals_dvd_decomp (L C : Nat) (hC : 0 < C) (hd : C ∣ L) :
    seqIntervals L C =
      ((List.range' 0 (L / C)).map
        (fun j => (j * C + 1, min ((j + 1) * C) L))) ++ [(L + 1, L)] := by
  unfold seqIntervals
  rw [List.range_succ, List.map_append, List.range_eq_range']
  congr 1
  have hq := Nat.div_add_mod L C
  have hr0 : L % C = 0 := Nat.mod_eq_zero_of_dvd hd
  have e2 : L / C * C = C * (L / C) := by ring
  have hstart : L / C * C + 1 = L + 1 := by omega
  have e3 : (L / C + 1) * C = C * (L / C) + C := by ring
  have hminval : min ((L / C + 1) * C) L = L := Nat.min_eq_right (by omega)
  simp [hstart, hminval]

theorem tilesExactly_seqIntervals_dvd_dropLast (L C : Nat) (hL : 0 < L) (hC : 0 < C)
    (hd : C ∣ L) :
    tilesExactly ((seqIntervals L C).dropLast) L = true ∧
    (seqIntervals L C).getLast? = some (L + 1, L) := by
  have hdecomp := seqIntervals_dvd_decomp L C hC hd
  rw [hdecomp, List.dropLast_concat, List.getLast?_concat]
  refine ⟨?_, rfl⟩
  unfold tilesExactly
  have hqpos : 0 < L / C := Nat.div_pos (Nat.le_of_dvd hL hd) hC
  have := chainFrom_seq_dvd L C hC hd (L / C) 0 (Nat.zero_add _) hqpos
  simpa using this

/-! ## Claim C1 -/

/-- Claim C1 counterexample: with a sequence of length 1 and chunk size 1
(chunk size dividing the length), `generate_intervals` emits the extra
degenerate interval `(2, 1)`, so the claimed property "every interval
satisfies start ≤ end" (and with it the exact tiling of `[1, L]`) is false. -/
theorem generate_intervals_tiles_cex :
    emittedFor (generate_intervals [("chr1", 1)] ["chr1"] 1) "chr1" = [(1, 1), (2, 1)] ∧
    ¬ (∀ p ∈ emittedFor (generate_intervals [("chr1", 1)] ["chr1"] 1) "chr1",
        p.1 ≤ p.2) := by
  constructor
  · decide
  · decide

/-- Claim C1 (amended): for a reference sequence of length `L ≥ 1` whose name
is in the target chromosome list and a chunk size `C ≥ 1`, when `C` does not
divide `L` the intervals emitted for that sequence exactly tile `[1, L]`
(first starts at 1, consecutive intervals contiguous, every start ≤ end, last
ends at `L`, no gaps or overlaps); when `C` divides `L`, all intervals but the
last exactly tile `[1, L]` and one additional degenerate interval
`[L+1, L]` is emitted after them. -/
theorem generate_intervals_tiles (ref : List (String × Nat))
    (chromosomes : List String) (name : String) (L C : Nat)
    (hmem : (name, L) ∈ ref) (hchrom : name ∈ chromosomes)
    (hnodup : (ref.map Prod.fst).Nodup) (hL : 1 ≤ L) (hC : 1 ≤ C) :
    (¬ C ∣ L →
      tilesExactly (emittedFor (generate_intervals ref chromosomes C) name) L = true) ∧
    (C ∣ L →
      tilesExactly ((emittedFor (generate_intervals ref chromosomes C) name).dropLast) L
          = true ∧
      (emittedFor (generate_intervals ref chromosomes C) name).getLast?
          = some (L + 1, L)) := by
  have hemit := @emittedFor_generate_intervals chromosomes C name L hchrom ref hmem hnodup
  rw [hemit]
  constructor
  · intro hnd
    exact tilesExactly_seqIntervals_ndvd L C (by omega) hnd
  · intro hd
    exact tilesExactly_seqIntervals_dvd_dropLast L C (by omega) (by omega) hd

/-- Claim C1 witness: concrete instance of `generate_intervals_tiles` for a
sequence of length 5 with chunk size 2. -/
theorem generate_intervals_tiles_witness :
    ¬ (2 ∣ 5) ∧
    tilesExactly (emittedFor (generate_intervals [("chr1", 5)] ["chr1"] 2) "chr1") 5
      = true :=
  ⟨by decide,
    (generate_intervals_tiles [("chr1", 5)] ["chr1"] "chr1" 5 2 (by decide) (by decide)
      (by decide) (by decide) (by decide)).1 (by decide)⟩

/-! ## Claim C2 -/

/-- Claim C2 counterexample: for a sequence of length 1 and chunk size 1 the
claim predicts `ceil(1/1) = 1` interval, but the code emits 2. -/
theorem generate_intervals_chunks_cex :
    (emittedFor (generate_intervals [("chr1", 1)] ["chr1"] 1) "chr1").length ≠ 1 := by
  decide

/-- Claim C2 (amended): for a sequence of length `L ≥ 1` in the target
chromosome list and a chunk size `C ≥ 1`, `generate_intervals` emits exactly
`floor(L/C) + 1` intervals for that sequence (which equals `ceil(L/C)` unless
`C` divides `L`, when it is one more), the i-th (0-based) spanning
`[i*C + 1, min((i+1)*C, L)]`; in particular, for sequence `chr1` of length
2,500,000 and chunk size 1,000,000 it emits exactly `chr1:1-1000000`,
`chr1:1000001-2000000`, `chr1:2000001-2500000`. -/
theorem generate_intervals_chunks (ref : List (String × Nat))
    (chromosomes : List String) (name : String) (L C : Nat)
    (hmem : (name, L) ∈ ref) (hchrom : name ∈ chromosomes)
    (hnodup : (ref.map Prod.fst).Nodup) (hL : 1 ≤ L) (hC : 1 ≤ C) :
    (emittedFor (generate_intervals ref chromosomes C) name).length = L / C + 1 ∧
    (∀ i, (h : i < (emittedFor (generate_intervals ref chromosomes C) name).length) →
      (emittedFor (generate_intervals ref chromosomes C) name).get ⟨i, h⟩ =
        (i * C + 1, min ((i + 1) * C) L)) ∧
    generate_intervals [("chr1", 2500000)] ["chr1"] 1000000 =
      [("chr1", 1, 1000000), ("chr1", 1000001, 2000000),
       ("chr1", 2000001, 2500000)] := by
  have hemit := @emittedFor_generate_intervals chromosomes C name L hchrom ref hmem hnodup
  rw [hemit]
  refine ⟨?_, ?_, ?_⟩
  · unfold seqIntervals
    simp
  · intro i h
    unfold seqIntervals at h ⊢
    simp [List.get_eq_getElem]
  · decide

/-- Claim C2 witness: the chr1 example instantiated through
`generate_intervals_chunks`. -/
theorem generate_intervals_chunks_witness :
    (1 : Nat) ≤ 2500000 ∧
    (emittedFor (generate_intervals [("chr1", 2500000)] ["chr1"] 1000000) "chr1").length
      = 2500000 / 1000000 + 1 :=
  ⟨by decide,
    (generate_intervals_chunks [("chr1", 2500000)] ["chr1"] "chr1" 2500000 1000000
      (by decide) (by decide) (by decide) (by decide) (by decide)).1⟩

/-! ## Claim C5 -/

theorem splitIntervalGo_spec (chrom : String) (isize stop : Nat) :
    ∀ (k s : Nat), s ≤ stop → stop ≤ s + (k + 1) * isize + k →
      (splitIntervalGo chrom isize stop (k + 1) s).length ≤ k + 1 ∧
      chainFrom s stop
        ((splitIntervalGo chrom isize stop (k + 1) s).map (fun t => t.2)) = true ∧
      (∀ t ∈ splitIntervalGo chrom isize stop (k + 1) s, t.1 = chrom) ∧
      (∀ t ∈ (splitIntervalGo chrom isize stop (k + 1) s).dropLast,
        t.2.2 - t.2.1 = isize) ∧
      splitIntervalGo chrom isize stop (k + 1) s ≠ [] := by
  intro k
  induction k with
  | zero =>
    intro s hs hbound
    have hcond : stop ≤ s + isize := by
      have e : (0 + 1) * isize = isize := by ring
      omega
    rw [splitIntervalGo, if_pos hcond]
    refine ⟨by simp, ?_, by simp, by simp, by simp⟩
    simp only [List.map_cons, List.map_nil, chainFrom]
    simp [hs]
  | succ k ih =>
    intro s hs hbound
    rw [splitIntervalGo]
    by_cases hcond : stop ≤ s + isize
    · rw [if_pos hcond]
      refine ⟨by simp only [List.length_singleton]; omega, ?_, by simp, by simp, by simp⟩
      simp only [List.map_cons, List.map_nil, chainFrom]
      simp [hs]
    · rw [if_neg hcond]
      have hs' : s + isize + 1 ≤ stop := by omega
      have hb' : stop ≤ (s + isize + 1) + (k + 1) * isize + k := by
        have e : (k + 1 + 1) * isize = (k + 1) * isize + isize := by ring
        omega
      obtain ⟨hlen, hchain, hchr, hsz, hne⟩ := ih (s + isize + 1) hs' hb'
      refine ⟨?_, ?_, ?_, ?_, by simp⟩
      · simp only [List.length_cons]
        omega
      · simp only [List.map_cons, chainFrom]
        rw [Bool.and_eq_true, Bool.and_eq_true, decide_eq_true_eq]
        exact ⟨⟨by simp, by omega⟩, hchain⟩
      · intro t ht
        rcases List.mem_cons.mp ht with rfl | ht'
        · rfl
        · exact hchr t ht'
      · rw [List.dropLast_cons_of_ne_nil hne]
        intro t ht
        rcases List.mem_cons.mp ht with rfl | ht'
        · simp
        · exact hsz t ht'

/-- Claim C5: for an interval `chrom:S-E` with `S ≤ E` and `num_splits ≥ 1`,
`split_interval` emits at most `num_splits` sub-intervals, contiguous (each
starting one past the previous end), the first starting at `S`, every piece
with start ≤ end, the last ending exactly at `E` (so the pieces cover `[S, E]`
exactly), all on the same chromosome, and every non-final piece of nominal
size `ceil((E - S) / num_splits)`. -/
theorem split_interval_spec (chrom : String) (S E num_splits : Nat)
    (hSE : S ≤ E) (hn : 1 ≤ num_splits) :
    (split_interval chrom S E num_splits).length ≤ num_splits ∧
    chainFrom S E ((split_interval chrom S E num_splits).map (fun t => t.2)) = true ∧
    (∀ t ∈ split_interval chrom S E num_splits, t.1 = chrom) ∧
    (∀ t ∈ (split_interval chrom S E num_splits).dropLast,
      t.2.2 - t.2.1 = (E - S + num_splits - 1) / num_splits) := by
  obtain ⟨k, rfl⟩ : ∃ k, num_splits = k + 1 := ⟨num_splits - 1, by omega⟩
  simp only [split_interval]
  have hdm := Nat.div_add_mod (E - S + (k + 1) - 1) (k + 1)
  have hmlt : (E - S + (k + 1) - 1) % (k + 1) < k + 1 := Nat.mod_lt _ (by omega)
  have hbound : E ≤ S + (k + 1) * ((E - S + (k + 1) - 1) / (k + 1)) + k := by omega
  obtain ⟨hlen, hchain, hchr, hsz, _⟩ :=
    splitIntervalGo_spec chrom ((E - S + (k + 1) - 1) / (k + 1)) E k S hSE hbound
  exact ⟨hlen, hchain, hchr, hsz⟩

/-- Claim C5 witness: the spec's own example, `chr2:1-100` split three ways,
instantiating `split_interval_spec`. -/
theorem split_interval_spec_witness :
    (split_interval "chr2" 1 100 3).length ≤ 3 ∧
    chainFrom 1 100 ((split_interval "chr2" 1 100 3).map (fun t => t.2)) = true ∧
    (∀ t ∈ split_interval "chr2" 1 100 3, t.1 = "chr2") ∧
    (∀ t ∈ (split_interval "chr2" 1 100 3).dropLast,
      t.2.2 - t.2.1 = (100 - 1 + 3 - 1) / 3) :=
  split_interval_spec "chr2" 1 100 3 (by decide) (by decide)

/-! ## Cell classifier: helper lemmas -/

theorem setEqCells_iff (a b : List String) :
    setEqCells a b = true ↔ ∀ x, (x ∈ a ↔ x ∈ b) := by
  unfold setEqCells
  rw [Bool.and_eq_true, List.all_eq_true, List.all_eq_true]
  constructor
  · rintro ⟨h1, h2⟩ x
    exact ⟨fun hx => List.elem_iff.mp (h1 x hx), fun hx => List.elem_iff.mp (h2 x hx)⟩
  · intro h
    exact ⟨fun x hx => List.elem_iff.mpr ((h x).mp hx),
      fun x hx => List.elem_iff.mpr ((h x).mpr hx)⟩

theorem dictKeys_dictInsert_of_any (d : List (String × String)) (k v : String)
    (h : d.any (fun p => p.1 == k) = true) :
    dictKeys (dictInsert d k v) = dictKeys d := by
  unfold dictInsert dictKeys
  rw [if_pos h, List.map_map]
  apply List.map_congr_left
  intro p _
  by_cases hp : p.1 == k
  · have : p.1 = k := beq_iff_eq.mp hp
    simp [hp, this]
  · have hne : p.1 ≠ k := fun hh => hp (beq_iff_eq.mpr hh)
    simp [hne]

theorem mem_dictKeys_dictInsert (d : List (String × String)) (k v x : String) :
    x ∈ dictKeys (dictInsert d k v) ↔ x ∈ dictKeys d ∨ x = k := by
  by_cases h : d.any (fun p => p.1 == k) = true
  · rw [dictKeys_dictInsert_of_any d k v h]
    rw [List.any_eq_true] at h
    obtain ⟨p, hp, hbeq⟩ := h
    have hk : k ∈ dictKeys d :=
      List.mem_map.mpr ⟨p, hp, beq_iff_eq.mp hbeq⟩
    constructor
    · exact Or.inl
    · rintro (hx | rfl)
      · exact hx
      · exact hk
  · unfold dictInsert dictKeys
    rw [if_neg h, List.map_append]
    simp [List.mem_append]

theorem mem_dictKeys_foldl (l : List (String × String)) :
    ∀ (acc : List (String × String)) (x : String),
      x ∈ dictKeys (l.foldl (fun d p => dictInsert d p.1 p.2) acc) ↔
        x ∈ dictKeys acc ∨ x ∈ l.map Prod.fst := by
  induction l with
  | nil =>
    intro acc x
    simp
  | cons p l ih =>
    intro acc x
    rw [List.foldl_cons, ih, mem_dictKeys_dictInsert, List.map_cons, List.mem_cons]
    tauto

theorem mem_dictKeys_buildDict (l : List (String × String)) (x : String) :
    x ∈ dictKeys (buildDict l) ↔ x ∈ l.map Prod.fst := by
  unfold buildDict
  rw [mem_dictKeys_foldl]
  simp [dictKeys]

theorem mem_map_fst_filter (l : List (String × String)) (q : String → Bool)
    (x : String) :
    x ∈ (l.filter (fun p => q p.1)).map Prod.fst ↔
      x ∈ l.map Prod.fst ∧ q x = true := by
  constructor
  · intro hx
    rw [List.mem_map] at hx
    obtain ⟨p, hp, rfl⟩ := hx
    rw [List.mem_filter] at hp
    exact ⟨List.mem_map.mpr ⟨p, hp.1, rfl⟩, hp.2⟩
  · rintro ⟨hx, hq⟩
    rw [List.mem_map] at hx
    obtain ⟨p, hp, rfl⟩ := hx
    exact List.mem_map.mpr ⟨p, List.mem_filter.mpr ⟨hp, hq⟩, rfl⟩

theorem contains_eq_false_iff (l : List String) (x : String) :
    l.contains x = false ↔ x ∉ l := by
  rw [Bool.eq_false_iff]
  constructor
  · intro h hx
    exact h (List.elem_iff.mpr hx)
  · intro h hx
    exact h (List.elem_iff.mp hx)

theorem not_contains_eq_true_iff (l : List String) (x : String) :
    (! l.contains x) = true ↔ x ∉ l := by
  rw [Bool.not_eq_true']
  exact contains_eq_false_iff l x

/-! ## Claim C3 -/

/-- Claim C3: when the supplied cell-id set equals the metrics table's cell-id
set (and the artifact and cell-id lists correspond positionally), the three
classifier calls succeed and their key sets are pairwise disjoint with union
the full cell-id set; a cell with `is_control` goes to the control mapping
even if also contaminated, a non-control contaminated cell goes to the
contaminated mapping, and every other cell goes to the pass mapping. -/
theorem classifier_partition (infiles cell_ids : List String)
    (metrics : List MetricsRow)
    (hset : ∀ x, x ∈ cell_ids ↔ x ∈ metricsCellIds metrics)
    (hlen : cell_ids.length = infiles.length) :
    ∃ dc dg dp,
      get_control_files infiles cell_ids metrics = some dc ∧
      get_contaminated_files infiles cell_ids metrics = some dg ∧
      get_pass_files infiles cell_ids metrics = some dp ∧
      (∀ c, c ∈ dictKeys dc ↔ c ∈ cell_ids ∧ c ∈ controlCells metrics) ∧
      (∀ c, c ∈ dictKeys dg ↔
        c ∈ cell_ids ∧ c ∉ controlCells metrics ∧ c ∈ contaminatedCells metrics) ∧
      (∀ c, c ∈ dictKeys dp ↔
        c ∈ cell_ids ∧ c ∉ controlCells metrics ∧ c ∉ contaminatedCells metrics) ∧
      (∀ c, ¬ (c ∈ dictKeys dc ∧ c ∈ dictKeys dg)) ∧
      (∀ c, ¬ (c ∈ dictKeys dc ∧ c ∈ dictKeys dp)) ∧
      (∀ c, ¬ (c ∈ dictKeys dg ∧ c ∈ dictKeys dp)) ∧
      (∀ c, c ∈ cell_ids ↔
        (c ∈ dictKeys dc ∨ c ∈ dictKeys dg ∨ c ∈ dictKeys dp)) := by
  have hsetb : setEqCells cell_ids (metricsCellIds metrics) = true :=
    (setEqCells_iff _ _).mpr hset
  have hzipfst : (cell_ids.zip infiles).map Prod.fst = cell_ids :=
    List.map_fst_zip _ _ (le_of_eq hlen)
  have hdc : ∀ c, c ∈ dictKeys (buildDict ((cell_ids.zip infiles).filter
      (fun p => (controlCells metrics).contains p.1))) ↔
      c ∈ cell_ids ∧ c ∈ controlCells metrics := by
    intro c
    have h1 := mem_dictKeys_buildDict ((cell_ids.zip infiles).filter
      (fun p => (controlCells metrics).contains p.1)) c
    have h2 := mem_map_fst_filter (cell_ids.zip infiles)
      (fun k => (controlCells metrics).contains k) c
    rw [hzipfst] at h2
    constructor
    · intro h
      obtain ⟨hc, hq⟩ := h2.mp (h1.mp h)
      exact ⟨hc, List.elem_iff.mp hq⟩
    · rintro ⟨hc, hm⟩
      exact h1.mpr (h2.mpr ⟨hc, List.elem_iff.mpr hm⟩)
  have hdg : ∀ c, c ∈ dictKeys ((buildDict ((cell_ids.zip infiles).filter
      (fun p => ! (controlCells metrics).contains p.1))).filter
      (fun p => (contaminatedCells metrics).contains p.1)) ↔
      c ∈ cell_ids ∧ c ∉ controlCells metrics ∧ c ∈ contaminatedCells metrics := by
    intro c
    have h0 := mem_map_fst_filter (buildDict ((cell_ids.zip infiles).filter
      (fun p => ! (controlCells metrics).contains p.1)))
      (fun k => (contaminatedCells metrics).contains k) c
    have h1 := mem_dictKeys_buildDict ((cell_ids.zip infiles).filter
      (fun p => ! (controlCells metrics).contains p.1)) c
    have h2 := mem_map_fst_filter (cell_ids.zip infiles)
      (fun k => ! (controlCells metrics).contains k) c
    rw [hzipfst] at h2
    constructor
    · intro h
      obtain ⟨hd, hcont⟩ := h0.mp h
      obtain ⟨hc, hnc⟩ := h2.mp (h1.mp hd)
      exact ⟨hc, (not_contains_eq_true_iff _ _).mp hnc, List.elem_iff.mp hcont⟩
    · rintro ⟨hc, hnctl, hcont⟩
      exact h0.mpr ⟨h1.mpr (h2.mpr ⟨hc, (not_contains_eq_true_iff _ _).mpr hnctl⟩),
        List.elem_iff.mpr hcont⟩
  have hdp : ∀ c, c ∈ dictKeys ((buildDict ((cell_ids.zip infiles).filter
      (fun p => ! (contaminatedCells metrics).contains p.1))).filter
      (fun p => ! (controlCells metrics).contains p.1)) ↔
      c ∈ cell_ids ∧ c ∉ controlCells metrics ∧ c ∉ contaminatedCells metrics := by
    intro c
    have h0 := mem_map_fst_filter (buildDict ((cell_ids.zip infiles).filter
      (fun p => ! (contaminatedCells metrics).contains p.1)))
      (fun k => ! (controlCells metrics).contains k) c
    have h1 := mem_dictKeys_buildDict ((cell_ids.zip infiles).filter
      (fun p => ! (contaminatedCells metrics).contains p.1)) c
    have h2 := mem_map_fst_filter (cell_ids.zip infiles)
      (fun k => ! (contaminatedCells metrics).contains k) c
    rw [hzipfst] at h2
    constructor
    · intro h
      obtain ⟨hd, hnctl⟩ := h0.mp h
      obtain ⟨hc, hncont⟩ := h2.mp (h1.mp hd)
      exact ⟨hc, (not_contains_eq_true_iff _ _).mp hnctl,
        (not_contains_eq_true_iff _ _).mp hncont⟩
    · rintro ⟨hc, hnctl, hncont⟩
      exact h0.mpr ⟨h1.mpr (h2.mpr ⟨hc, (not_contains_eq_true_iff _ _).mpr hncont⟩),
        (not_contains_eq_true_iff _ _).mpr hnctl⟩
  unfold get_control_files get_contaminated_files get_pass_files
  rw [if_pos hsetb, if_pos hsetb, if_pos hsetb]
  refine ⟨_, _, _, rfl, rfl, rfl, hdc, hdg, hdp, ?_, ?_, ?_, ?_⟩
  · intro c
    have h1 := hdc c
    have h2 := hdg c
    tauto
  · intro c
    have h1 := hdc c
    have h3 := hdp c
    tauto
  · intro c
    have h2 := hdg c
    have h3 := hdp c
    tauto
  · intro c
    have h1 := hdc c
    have h2 := hdg c
    have h3 := hdp c
    tauto

/-- Claim C3 witness: the spec's own example, cells A (control), B
(contaminated), C (neither), instantiating `classifier_partition`. -/
theorem classifier_partition_witness :
    ∃ dc dg dp,
      get_control_files ["fA", "fB", "fC"] ["A", "B", "C"]
        [⟨"A", true, false⟩, ⟨"B", false, true⟩, ⟨"C", false, false⟩] = some dc ∧
      get_contaminated_files ["fA", "fB", "fC"] ["A", "B", "C"]
        [⟨"A", true, false⟩, ⟨"B", false, true⟩, ⟨"C", false, false⟩] = some dg ∧
      get_pass_files ["fA", "fB", "fC"] ["A", "B", "C"]
        [⟨"A", true, false⟩, ⟨"B", false, true⟩, ⟨"C", false, false⟩] = some dp ∧
      (∀ c, c ∈ dictKeys dc ↔ c ∈ ["A", "B", "C"] ∧
        c ∈ controlCells [⟨"A", true, false⟩, ⟨"B", false, true⟩, ⟨"C", false, false⟩]) ∧
      (∀ c, c ∈ dictKeys dg ↔ c ∈ ["A", "B", "C"] ∧
        c ∉ controlCells [⟨"A", true, false⟩, ⟨"B", false, true⟩, ⟨"C", false, false⟩] ∧
        c ∈ contaminatedCells
          [⟨"A", true, false⟩, ⟨"B", false, true⟩, ⟨"C", false, false⟩]) ∧
      (∀ c, c ∈ dictKeys dp ↔ c ∈ ["A", "B", "C"] ∧
        c ∉ controlCells [⟨"A", true, false⟩, ⟨"B", false, true⟩, ⟨"C", false, false⟩] ∧
        c ∉ contaminatedCells
          [⟨"A", true, false⟩, ⟨"B", false, true⟩, ⟨"C", false, false⟩]) ∧
      (∀ c, ¬ (c ∈ dictKeys dc ∧ c ∈ dictKeys dg)) ∧
      (∀ c, ¬ (c ∈ dictKeys dc ∧ c ∈ dictKeys dp)) ∧
      (∀ c, ¬ (c ∈ dictKeys dg ∧ c ∈ dictKeys dp)) ∧
      (∀ c, c ∈ ["A", "B", "C"] ↔
        (c ∈ dictKeys dc ∨ c ∈ dictKeys dg ∨ c ∈ dictKeys dp)) :=
  classifier_partition ["fA", "fB", "fC"] ["A", "B", "C"]
    [⟨"A", true, false⟩, ⟨"B", false, true⟩, ⟨"C", false, false⟩]
    (by intro x; simp [metricsCellIds]) (by decide)

/-! ## Claim C7 -/

/-- Claim C7: when the supplied cell-id set differs from the metrics table's
cell-id set (by even one element), all three classifier calls fail (the
`assert` raises, modelled as `none`): no mapping is returned. -/
theorem classifier_set_mismatch (infiles cell_ids : List String)
    (metrics : List MetricsRow)
    (h : ¬ ∀ x, (x ∈ cell_ids ↔ x ∈ metricsCellIds metrics)) :
    get_pass_files infiles cell_ids metrics = none ∧
    get_control_files infiles cell_ids metrics = none ∧
    get_contaminated_files infiles cell_ids metrics = none := by
  have hsetb : setEqCells cell_ids (metricsCellIds metrics) = false := by
    rw [Bool.eq_false_iff]
    intro hh
    exact h ((setEqCells_iff _ _).mp hh)
  have hne : ¬ (setEqCells cell_ids (metricsCellIds metrics) = true) := by
    rw [hsetb]
    simp
  unfold get_pass_files get_control_files get_contaminated_files
  rw [if_neg hne, if_neg hne, if_neg hne]
  exact ⟨rfl, rfl, rfl⟩

/-- Claim C7 witness: a cell-id list naming A where the metrics table names B;
all three classifier calls return no mapping. -/
theorem classifier_set_mismatch_witness :
    get_pass_files ["f1"] ["A"] [⟨"B", false, false⟩] = none ∧
    get_control_files ["f1"] ["A"] [⟨"B", false, false⟩] = none ∧
    get_contaminated_files ["f1"] ["A"] [⟨"B", false, false⟩] = none :=
  classifier_set_mismatch ["f1"] ["A"] [⟨"B", false, false⟩]
    (fun hall => by
      have := (hall "A").mp (by simp)
      simp [metricsCellIds] at this)

/-! ## Claim C10: dict lookup helper lemmas -/

theorem find?_map_overwrite_self (a v : String) :
    ∀ (d : List (String × String)), d.any (fun p => p.1 == a) = true →
      (d.map (fun p => if p.1 == a then (a, v) else p)).find? (fun p => p.1 == a)
        = some (a, v) := by
  intro d
  induction d with
  | nil => intro h; simp at h
  | cons p d ih =>
    intro h
    rw [List.map_cons]
    by_cases hp : (p.1 == a) = true
    · rw [if_pos hp, List.find?_cons]
      simp
    · have hpf : (p.1 == a) = false := Bool.eq_false_iff.mpr hp
      rw [if_neg hp, List.find?_cons, hpf]
      apply ih
      rw [List.any_cons, Bool.or_eq_true] at h
      rcases h with h | h
      · exact absurd h hp
      · exact h

theorem find?_map_overwrite_ne (a v k : String) (hk : k ≠ a) :
    ∀ (d : List (String × String)),
      (d.map (fun p => if p.1 == a then (a, v) else p)).find? (fun p => p.1 == k)
        = d.find? (fun p => p.1 == k) := by
  intro d
  induction d with
  | nil => simp
  | cons p d ih =>
    rw [List.map_cons]
    by_cases hp : (p.1 == a) = true
    · rw [if_pos hp]
      have hpa : p.1 = a := beq_iff_eq.mp hp
      have h1 : ((a : String) == k) = false := by
        rw [Bool.eq_false_iff]
        intro hh
        exact hk (beq_iff_eq.mp hh).symm
      have h2 : (p.1 == k) = false := by
        rw [hpa]
        exact h1
      rw [List.find?_cons, List.find?_cons,
        show (((a, v) : String × String).1 == k) = false from h1, h2]
      exact ih
    · rw [if_neg hp, List.find?_cons, List.find?_cons]
      by_cases hq : (p.1 == k) = true
      · rw [hq]
      · have hqf : (p.1 == k) = false := Bool.eq_false_iff.mpr hq
        rw [hqf]
        exact ih

theorem dictLookup_dictInsert (d : List (String × String)) (a v k : String) :
    dictLookup (dictInsert d a v) k = if k = a then some v else dictLookup d k := by
  unfold dictInsert dictLookup
  by_cases hany : (d.any fun p => p.1 == a) = true
  · rw [if_pos hany]
    by_cases hk : k = a
    · subst hk
      rw [if_pos rfl, find?_map_overwrite_self k v d hany]
      rfl
    · rw [if_neg hk, find?_map_overwrite_ne a v k hk d]
  · rw [if_neg hany]
    rw [List.find?_append]
    have hall : ∀ p ∈ d, ¬ (p.1 == a) = true :=
      List.any_eq_false.mp (Bool.eq_false_iff.mpr hany)
    by_cases hk : k = a
    · subst hk
      have hnone : d.find? (fun p => p.1 == k) = none :=
        List.find?_eq_none.mpr hall
      rw [hnone, Option.none_or, if_pos rfl]
      simp [List.find?]
    · rw [if_neg hk]
      have h1 : List.find? (fun p => p.1 == k) [(a, v)] = none := by
        apply List.find?_eq_none.mpr
        intro p hp
        rw [List.mem_singleton] at hp
        subst hp
        simp
        exact fun hh => hk hh.symm
      rw [h1, Option.or_none]

theorem dictLookup_foldl (k : String) :
    ∀ (l acc : List (String × String)),
      dictLookup (l.foldl (fun d p => dictInsert d p.1 p.2) acc) k =
        match l.reverse.find? (fun p => p.1 == k) with
        | some p => some p.2
        | none => dictLookup acc k := by
  intro l
  induction l with
  | nil => intro acc; simp
  | cons p l ih =>
    intro acc
    rw [List.foldl_cons, ih (dictInsert acc p.1 p.2)]
    rw [List.reverse_cons, List.find?_append]
    cases hfind : l.reverse.find? (fun q => q.1 == k) with
    | some q => simp
    | none =>
      simp only [Option.none_or]
      rw [dictLookup_dictInsert]
      by_cases hk : k = p.1
      · have hfp : List.find? (fun q => q.1 == k) [p] = some p := by
          rw [List.find?_cons, beq_iff_eq.mpr hk.symm]
        rw [hfp, if_pos hk]
      · have hfp : List.find? (fun q => q.1 == k) [p] = none := by
          apply List.find?_eq_none.mpr
          intro q hq
          rw [List.mem_singleton] at hq
          subst hq
          intro hh
          exact hk (beq_iff_eq.mp hh).symm
        rw [hfp, if_neg hk]

theorem dictLookup_buildDict (l : List (String × String)) (k : String) :
    dictLookup (buildDict l) k = lastValue l k := by
  unfold buildDict lastValue
  rw [dictLookup_foldl k l []]
  cases hfind : l.reverse.find? (fun p => p.1 == k) with
  | some q => simp
  | none => simp [dictLookup]

theorem filter_dictInsert (d : List (String × String)) (q : String → Bool)
    (a v : String) :
    (dictInsert d a v).filter (fun p => q p.1) =
      if q a = true then dictInsert (d.filter (fun p => q p.1)) a v
      else d.filter (fun p => q p.1) := by
  unfold dictInsert
  by_cases hany : (d.any fun p => p.1 == a) = true
  · rw [if_pos hany]
    have hmapfilter : (d.map (fun p => if p.1 == a then (a, v) else p)).filter
        (fun p => q p.1) =
        (d.filter (fun p => q p.1)).map (fun p => if p.1 == a then (a, v) else p) := by
      rw [List.filter_map]
      congr 1
      apply List.filter_congr
      intro p _
      by_cases hp : (p.1 == a) = true
      · have hpa : p.1 = a := beq_iff_eq.mp hp
        simp [Function.comp, hp, hpa]
      · simp [Function.comp, hp]
    rw [hmapfilter]
    by_cases hq : q a = true
    · rw [if_pos hq]
      have hany2 : ((d.filter (fun p => q p.1)).any fun p => p.1 == a) = true := by
        rw [List.any_eq_true] at hany ⊢
        obtain ⟨p, hp, hbeq⟩ := hany
        refine ⟨p, List.mem_filter.mpr ⟨hp, ?_⟩, hbeq⟩
        have hpa : p.1 = a := beq_iff_eq.mp hbeq
        rw [hpa]
        exact hq
      rw [if_pos hany2]
    · rw [if_neg hq]
      have hid : ∀ p ∈ d.filter (fun p => q p.1),
          (if p.1 == a then (a, v) else p) = p := by
        intro p hp
        rw [List.mem_filter] at hp
        by_cases hpa : (p.1 == a) = true
        · exfalso
          have : p.1 = a := beq_iff_eq.mp hpa
          rw [this] at hp
          exact hq hp.2
        · rw [if_neg hpa]
      calc (d.filter (fun p => q p.1)).map (fun p => if p.1 == a then (a, v) else p)
          = (d.filter (fun p => q p.1)).map (fun p => p) := List.map_congr_left hid
        _ = d.filter (fun p => q p.1) := List.map_id' _
  · rw [if_neg hany]
    rw [List.filter_append]
    by_cases hq : q a = true
    · rw [if_pos hq]
      have hseg : List.filter (fun p => q p.1) [(a, v)] = [(a, v)] := by
        simp [hq]
      rw [hseg]
      have hany2 : ((d.filter (fun p => q p.1)).any fun p => p.1 == a) = false := by
        rw [List.any_eq_false]
        intro p hp
        exact List.any_eq_false.mp (Bool.eq_false_iff.mpr hany) p
          (List.mem_filter.mp hp).1
      rw [if_neg (by rw [hany2]; simp)]
    · rw [if_neg hq]
      have hseg : List.filter (fun p => q p.1) [(a, v)] = [] := by
        simp [hq]
      rw [hseg, List.append_nil]

theorem buildDict_filter_foldl (q : String → Bool) :
    ∀ (l acc : List (String × String)),
      (l.foldl (fun d p => dictInsert d p.1 p.2) acc).filter (fun p => q p.1) =
        (l.filter (fun p => q p.1)).foldl (fun d p => dictInsert d p.1 p.2)
          (acc.filter (fun p => q p.1)) := by
  intro l
  induction l with
  | nil => intro acc; simp
  | cons p l ih =>
    intro acc
    rw [List.foldl_cons, ih (dictInsert acc p.1 p.2), filter_dictInsert]
    by_cases hq : q p.1 = true
    · rw [if_pos hq, List.filter_cons, if_pos hq, List.foldl_cons]
    · rw [if_neg hq, List.filter_cons, if_neg hq]

theorem buildDict_filter (l : List (String × String)) (q : String → Bool) :
    (buildDict l).filter (fun p => q p.1) = buildDict (l.filter (fun p => q p.1)) := by
  unfold buildDict
  rw [buildDict_filter_foldl q l []]
  rw [List.filter_nil]

/-- Claim C10: when the supplied cell-id list has duplicates or the infiles
and cell-id lists differ in length, while the cell-id SET still equals the
metrics table's cell-id set, no error is raised: every call succeeds, pairing
is positional over `zip(cell_ids, infiles)` (the shorter list truncating the
longer), and for a duplicated cell id the artifact at the last surviving
position is the value held in the returned mapping. -/
theorem classifier_positional (infiles cell_ids : List String)
    (metrics : List MetricsRow)
    (hset : ∀ x, (x ∈ cell_ids ↔ x ∈ metricsCellIds metrics))
    (hdup : ¬ cell_ids.Nodup ∨ cell_ids.length ≠ infiles.length) :
    ∃ dc dg dp,
      get_control_files infiles cell_ids metrics = some dc ∧
      get_contaminated_files infiles cell_ids metrics = some dg ∧
      get_pass_files infiles cell_ids metrics = some dp ∧
      (∀ k, dictLookup dc k = lastValue ((cell_ids.zip infiles).filter
        (fun p => (controlCells metrics).contains p.1)) k) ∧
      (∀ k, dictLookup dg k = lastValue ((cell_ids.zip infiles).filter
        (fun p => (contaminatedCells metrics).contains p.1 &&
          ! (controlCells metrics).contains p.1)) k) ∧
      (∀ k, dictLookup dp k = lastValue ((cell_ids.zip infiles).filter
        (fun p => ! (controlCells metrics).contains p.1 &&
          ! (contaminatedCells metrics).contains p.1)) k) := by
  have hsetb : setEqCells cell_ids (metricsCellIds metrics) = true :=
    (setEqCells_iff _ _).mpr hset
  unfold get_control_files get_contaminated_files get_pass_files
  rw [if_pos hsetb, if_pos hsetb, if_pos hsetb]
  refine ⟨_, _, _, rfl, rfl, rfl, ?_, ?_, ?_⟩
  · intro k
    exact dictLookup_buildDict _ k
  · intro k
    have e1 := buildDict_filter ((cell_ids.zip infiles).filter
      (fun p => ! (controlCells metrics).contains p.1))
      (fun c => (contaminatedCells metrics).contains c)
    have e2 := @List.filter_filter (String × String)
      (fun p => (contaminatedCells metrics).contains p.1)
      (fun p => ! (controlCells metrics).contains p.1)
      (cell_ids.zip infiles)
    rw [e1, e2]
    exact dictLookup_buildDict _ k
  · intro k
    have e1 := buildDict_filter ((cell_ids.zip infiles).filter
      (fun p => ! (contaminatedCells metrics).contains p.1))
      (fun c => ! (controlCells metrics).contains c)
    have e2 := @List.filter_filter (String × String)
      (fun p => ! (controlCells metrics).contains p.1)
      (fun p => ! (contaminatedCells metrics).contains p.1)
      (cell_ids.zip infiles)
    rw [e1, e2]
    exact dictLookup_buildDict _ k

/-- Claim C10 witness: cell id A occurs twice (positions 0 and 2) with three
artifacts; the calls succeed and each mapping's lookups follow the
last-surviving-position rule over the zipped pairing. -/
theorem classifier_positional_witness :
    ∃ dc dg dp,
      get_control_files ["f1", "f2", "f3"] ["A", "B", "A"]
        [⟨"A", false, false⟩, ⟨"B", true, false⟩] = some dc ∧
      get_contaminated_files ["f1", "f2", "f3"] ["A", "B", "A"]
        [⟨"A", false, false⟩, ⟨"B", true, false⟩] = some dg ∧
      get_pass_files ["f1", "f2", "f3"] ["A", "B", "A"]
        [⟨"A", false, false⟩, ⟨"B", true, false⟩] = some dp ∧
      (∀ k, dictLookup dc k = lastValue (((["A", "B", "A"] : List String).zip
        ["f1", "f2", "f3"]).filter
        (fun p => (controlCells [⟨"A", false, false⟩, ⟨"B", true, false⟩]).contains p.1)) k) ∧
      (∀ k, dictLookup dg k = lastValue (((["A", "B", "A"] : List String).zip
        ["f1", "f2", "f3"]).filter
        (fun p => (contaminatedCells [⟨"A", false, false⟩, ⟨"B", true, false⟩]).contains p.1 &&
          ! (controlCells [⟨"A", false, false⟩, ⟨"B", true, false⟩]).contains p.1)) k) ∧
      (∀ k, dictLookup dp k = lastValue (((["A", "B", "A"] : List String).zip
        ["f1", "f2", "f3"]).filter
        (fun p => ! (controlCells [⟨"A", false, false⟩, ⟨"B", true, false⟩]).contains p.1 &&
          ! (contaminatedCells [⟨"A", false, false⟩, ⟨"B", true, false⟩]).contains p.1)) k) :=
  classifier_positional ["f1", "f2", "f3"] ["A", "B", "A"]
    [⟨"A", false, false⟩, ⟨"B", true, false⟩]
    (by intro x; simp [metricsCellIds]; tauto)
    (Or.inl (by decide))

/-! ## Claim C4 -/

theorem contaminationFlag_eq_any (alts : List String) (threshold : ℚ) (cell : FQCell) :
    contaminationFlag alts threshold cell =
      alts.any (fun alt => decide (threshold < unique_ratio cell alt)) := by
  unfold contaminationFlag
  suffices h : ∀ (l : List String) (b : Bool),
      l.foldl (fun acc alt => if threshold < unique_ratio cell alt then true else acc) b =
        (b || l.any (fun alt => decide (threshold < unique_ratio cell alt))) by
    rw [h alts false]
    simp
  intro l
  induction l with
  | nil => intro b; simp
  | cons a l ih =>
    intro b
    rw [List.foldl_cons, ih, List.any_cons]
    by_cases hx : threshold < unique_ratio cell a
    · simp [hx]
    · simp [hx]

/-- Claim C4: when the primary reference organism's fastqscreen counts are
present, `add_contamination_status` succeeds and marks each cell
`is_contaminated` exactly when some non-primary organism has
`(mapped - multihit) / total_reads` strictly greater than the threshold; a
cell whose ratio is equal to the threshold (or below) for every non-primary
organism is not flagged. -/
theorem add_contamination_status_flags (columns : List String) (cells : List FQCell)
    (reference : String) (threshold : ℚ)
    (href : reference ∈ extractOrganisms columns)
    (htot : ∀ cell ∈ cells, 0 < cell.total_reads) :
    add_contamination_status columns cells reference threshold =
      some (cells.map (fun cell => (cell.cell_id,
        contaminationFlag ((extractOrganisms columns).filter
          (fun c => ! (c == reference))) threshold cell))) ∧
    ∀ cell ∈ cells,
      (contaminationFlag ((extractOrganisms columns).filter
          (fun c => ! (c == reference))) threshold cell = true ↔
        ∃ alt ∈ (extractOrganisms columns).filter (fun c => ! (c == reference)),
          threshold < unique_ratio cell alt) := by
  constructor
  · unfold add_contamination_status
    rw [if_pos (List.elem_iff.mpr href)]
  · intro cell _
    rw [contaminationFlag_eq_any, List.any_eq_true]
    constructor
    · rintro ⟨alt, halt, hdec⟩
      exact ⟨alt, halt, of_decide_eq_true hdec⟩
    · rintro ⟨alt, halt, hlt⟩
      exact ⟨alt, halt, decide_eq_true hlt⟩

/-- Claim C4 witness: grch37 is the primary reference; the single cell has a
mm10 unique ratio of exactly (6 - 1)/100 = 1/20, a tie with the default
threshold 0.05, and the instantiated theorem applies. -/
theorem add_contamination_status_flags_witness :
    add_contamination_status
      ["cell_id", "fastqscreen_grch37", "fastqscreen_grch37_multihit",
       "fastqscreen_mm10", "fastqscreen_mm10_multihit", "fastqscreen_total_reads"]
      [⟨"SA123", fun o => if o == "mm10" then 6 else 90,
        fun o => if o == "mm10" then 1 else 2, 100⟩]
      "grch37" (1 / 20) =
      some ([⟨"SA123", fun o => if o == "mm10" then 6 else 90,
        fun o => if o == "mm10" then 1 else 2, 100⟩].map (fun cell => (cell.cell_id,
        contaminationFlag ((extractOrganisms
          ["cell_id", "fastqscreen_grch37", "fastqscreen_grch37_multihit",
           "fastqscreen_mm10", "fastqscreen_mm10_multihit",
           "fastqscreen_total_reads"]).filter
          (fun c => ! (c == "grch37"))) (1 / 20) cell))) ∧
    ∀ cell ∈ [(⟨"SA123", fun o => if o == "mm10" then 6 else 90,
        fun o => if o == "mm10" then 1 else 2, 100⟩ : FQCell)],
      (contaminationFlag ((extractOrganisms
          ["cell_id", "fastqscreen_grch37", "fastqscreen_grch37_multihit",
           "fastqscreen_mm10", "fastqscreen_mm10_multihit",
           "fastqscreen_total_reads"]).filter
          (fun c => ! (c == "grch37"))) (1 / 20) cell = true ↔
        ∃ alt ∈ (extractOrganisms
          ["cell_id", "fastqscreen_grch37", "fastqscreen_grch37_multihit",
           "fastqscreen_mm10", "fastqscreen_mm10_multihit",
           "fastqscreen_total_reads"]).filter (fun c => ! (c == "grch37")),
          (1 : ℚ) / 20 < unique_ratio cell alt) :=
  add_contamination_status_flags
    ["cell_id", "fastqscreen_grch37", "fastqscreen_grch37_multihit",
     "fastqscreen_mm10", "fastqscreen_mm10_multihit", "fastqscreen_total_reads"]
    [⟨"SA123", fun o => if o == "mm10" then 6 else 90,
      fun o => if o == "mm10" then 1 else 2, 100⟩]
    "grch37" (1 / 20) (by decide)
    (by
      intro cell hc
      rcases List.mem_singleton.mp hc with rfl
      decide)

/-! ## Claim C8 -/

/-- Claim C8: when the fastqscreen columns do not include the designated
primary reference organism, `add_contamination_status` fails (raises,
modelled as `none`) and writes no output table. -/
theorem add_contamination_status_missing_reference (columns : List String)
    (cells : List FQCell) (reference : String) (threshold : ℚ)
    (h : reference ∉ extractOrganisms columns) :
    add_contamination_status columns cells reference threshold = none := by
  unfold add_contamination_status
  rw [if_neg (fun hc => h (List.elem_iff.mp hc))]

/-- Claim C8 witness: a table with only mm10 fastqscreen counts and primary
reference grch37 yields no output. -/
theorem add_contamination_status_missing_reference_witness :
    "grch37" ∉ extractOrganisms
      ["cell_id", "fastqscreen_mm10", "fastqscreen_mm10_multihit",
       "fastqscreen_total_reads"] ∧
    add_contamination_status
      ["cell_id", "fastqscreen_mm10", "fastqscreen_mm10_multihit",
       "fastqscreen_total_reads"] [] "grch37" (1 / 20) = none :=
  ⟨by decide,
    add_contamination_status_missing_reference
      ["cell_id", "fastqscreen_mm10", "fastqscreen_mm10_multihit",
       "fastqscreen_total_reads"] [] "grch37" (1 / 20) (by decide)⟩

/-! ## Claim C6 -/

/-- Claim C6: `merge_cells` on an empty group does not fail: it writes an
artifact holding exactly the supplied template header and zero alignment
records, and still runs the indexing step and the coverage-count sidecar
step, whatever the external merge and reheader capabilities are. -/
theorem merge_cells_empty (mergeBams : List String → BamFile)
    (reheaderBam : BamFile → String → BamFile) (empty_bam_content : String) :
    merge_cells mergeBams reheaderBam [] empty_bam_content =
      { outfile := { header := empty_bam_content, records := [] },
        indexCreated := true, countsCreated := true } := rfl

/-! ## Claim C9 -/

theorem sortStrings_sorted (l : List String) :
    (sortStrings l).Sorted (fun a b => a ≤ b) :=
  List.sorted_insertionSort _ l

theorem sortStrings_perm (l : List String) : (sortStrings l).Perm l :=
  List.perm_insertionSort _ l

theorem sortStrings_eq_of_perm {a b : List String} (h : a.Perm b) :
    sortStrings a = sortStrings b :=
  List.eq_of_perm_of_sorted
    ((sortStrings_perm a).trans (h.trans (sortStrings_perm b).symm))
    (sortStrings_sorted a) (sortStrings_sorted b)

/-- Claim C9: the `meta` block identifier lists written by `generate_metadata`
are lexicographically sorted and duplicate-free, and two runs over the same
cells presented in any order produce identical lists. -/
theorem generate_metadata_meta_sorted (cells : List CellMeta)
    (hnodup : (cells.map (fun c => c.cell_id)).Nodup) :
    ((generate_metadata_meta cells).1.Sorted (fun a b => a ≤ b) ∧
      (generate_metadata_meta cells).1.Nodup) ∧
    ((generate_metadata_meta cells).2.1.Sorted (fun a b => a ≤ b) ∧
      (generate_metadata_meta cells).2.1.Nodup) ∧
    ((generate_metadata_meta cells).2.2.Sorted (fun a b => a ≤ b) ∧
      (generate_metadata_meta cells).2.2.Nodup) ∧
    (∀ cells₂ : List CellMeta, cells.Perm cells₂ →
      generate_metadata_meta cells₂ = generate_metadata_meta cells) := by
  refine ⟨⟨sortStrings_sorted _, ?_⟩, ⟨sortStrings_sorted _, ?_⟩,
    ⟨sortStrings_sorted _, ?_⟩, ?_⟩
  · exact (sortStrings_perm _).symm.nodup (List.nodup_dedup _)
  · exact (sortStrings_perm _).symm.nodup (List.nodup_dedup _)
  · exact (sortStrings_perm _).symm.nodup hnodup
  · intro cells₂ hperm
    unfold generate_metadata_meta
    rw [Prod.mk.injEq, Prod.mk.injEq]
    exact ⟨sortStrings_eq_of_perm ((hperm.map _).dedup).symm,
      sortStrings_eq_of_perm ((hperm.map _).dedup).symm,
      sortStrings_eq_of_perm (hperm.map _).symm⟩

/-- Claim C9 witness: two cells presented out of order; the instantiated meta
block lists are sorted, duplicate-free and permutation-invariant. -/
theorem generate_metadata_meta_sorted_witness :
    ((generate_metadata_meta [⟨"c2", "s1", "l2"⟩, ⟨"c1", "s1", "l1"⟩]).1.Sorted
        (fun a b => a ≤ b) ∧
      (generate_metadata_meta [⟨"c2", "s1", "l2"⟩, ⟨"c1", "s1", "l1"⟩]).1.Nodup) ∧
    ((generate_metadata_meta [⟨"c2", "s1", "l2"⟩, ⟨"c1", "s1", "l1"⟩]).2.1.Sorted
        (fun a b => a ≤ b) ∧
      (generate_metadata_meta [⟨"c2", "s1", "l2"⟩, ⟨"c1", "s1", "l1"⟩]).2.1.Nodup) ∧
    ((generate_metadata_meta [⟨"c2", "s1", "l2"⟩, ⟨"c1", "s1", "l1"⟩]).2.2.Sorted
        (fun a b => a ≤ b) ∧
      (generate_metadata_meta [⟨"c2", "s1", "l2"⟩, ⟨"c1", "s1", "l1"⟩]).2.2.Nodup) ∧
    (∀ cells₂ : List CellMeta,
      ([⟨"c2", "s1", "l2"⟩, ⟨"c1", "s1", "l1"⟩] : List CellMeta).Perm cells₂ →
      generate_metadata_meta cells₂ =
        generate_metadata_meta [⟨"c2", "s1", "l2"⟩, ⟨"c1", "s1", "l1"⟩]) :=
  generate_metadata_meta_sorted [⟨"c2", "s1", "l2"⟩, ⟨"c1", "s1", "l1"⟩] (by decide)

end MondrianUtils
